import Mathlib

/-!
# Verification of the QuantumSim entity/state core

A shallow embedding of `src/QuantumSim.cpp`: the data model (atoms,
electrons, links), the electron distribution generator, the command
handlers (`toggleActiveSelected`, `scheduleSelected`, `linkPair`,
`removeSelected`, `clearAll`, `addAtom`), the per-frame update
(activation scheduler + orbit integrator) and the pointer interaction
handlers (canvas press, drag move).

Floats of the source are embedded as exact rationals (`ℚ`); the
process-global random generator is embedded as an explicit draw
function `rng : ℕ → ℕ`, where `rng k` is the value of the k-th call to
`rand()`.
-/

namespace QuantumSim

/-- 2D float vector (`sf::Vector2f`). -/
structure Vec2 where
  x : ℚ
  y : ℚ
deriving Repr, DecidableEq

/-- Componentwise subtraction (`operator-` on `sf::Vector2f`). -/
def Vec2.sub (u v : Vec2) : Vec2 := ⟨u.x - v.x, u.y - v.y⟩

/-- `struct Element` (line 13): catalog entry. Color is an RGB triple. -/
structure Element where
  name : String
  symbol : String
  atomicNumber : Int
  color : Nat × Nat × Nat
deriving Repr, DecidableEq

/-- `ELEMENTS` (line 20): the fixed 10-entry catalog. -/
def ELEMENTS : List Element :=
  [ ⟨"Hydrogen", "H", 1, (200, 200, 255)⟩,
    ⟨"Helium", "He", 2, (255, 200, 200)⟩,
    ⟨"Lithium", "Li", 3, (200, 255, 200)⟩,
    ⟨"Beryllium", "Be", 4, (200, 255, 255)⟩,
    ⟨"Boron", "B", 5, (255, 220, 180)⟩,
    ⟨"Carbon", "C", 6, (180, 180, 180)⟩,
    ⟨"Nitrogen", "N", 7, (150, 200, 255)⟩,
    ⟨"Oxygen", "O", 8, (255, 120, 120)⟩,
    ⟨"Sodium", "Na", 11, (255, 255, 120)⟩,
    ⟨"Chlorine", "Cl", 17, (120, 255, 120)⟩ ]

/-- `struct Electron` (line 33). -/
structure Electron where
  radius : ℚ
  angle : ℚ
  speed : ℚ
deriving Repr, DecidableEq

/-- `struct Atom` (line 39). -/
structure Atom where
  id : Int
  elementIndex : Int
  pos : Vec2
  nucleusRadius : ℚ := 16
  active : Bool := false
  selected : Bool := false
  electrons : List Electron
  scheduledStart : Option ℚ := none
deriving Repr, DecidableEq

/-- `struct Link` (line 50). -/
structure Link where
  aId : Int
  bId : Int
deriving Repr, DecidableEq

/-- `SIDEBAR_W` (line 62). -/
def SIDEBAR_W : ℚ := 320

/-- `std::clamp(v, lo, hi)`: `v < lo ? lo : hi < v ? hi : v`. -/
def clampQ (v lo hi : ℚ) : ℚ := if v < lo then lo else if hi < v then hi else v

/-- `clampToCanvas` (line 94): clamp a point into the canvas rectangle
`[SIDEBAR_W+20, winW-20] × [20, winH-20]`. -/
def clampToCanvas (p : Vec2) (winW winH : ℚ) : Vec2 :=
  ⟨clampQ p.x (SIDEBAR_W + 20) (winW - 20), clampQ p.y 20 (winH - 20)⟩

/-- The float literal `3.1415926f` used for π (line 113). -/
def piF : ℚ := 31415926 / 10000000

/-- Base angular speed of a shell-`s` electron before jitter
(line 114): `(s % 2 == 0 ? 0.8 : -0.5) * (1 - s*0.1)`. -/
def baseSpeed (s : Nat) : ℚ :=
  (if s % 2 == 0 then (8 : ℚ) / 10 else -(5 / 10)) * (1 - (s : ℚ) * (1 / 10))

/-- The inner loop of `makeElectronsForElement` (lines 112-117): the `n`
electrons of the shell with index `s` and radius `rad`; `k` is the index
of the first `rand()` draw consumed by this shell. -/
def shellElectrons (s : Nat) (rad : ℚ) (n : Nat) (k : Nat) (rng : Nat → Nat) :
    List Electron :=
  (List.range n).map fun i =>
    let draw : Nat := rng (k + i) % 100
    { radius := rad
      angle := 2 * piF * (i : ℚ) / (max 1 n : Nat)
      speed := baseSpeed s + ((draw : ℚ) / 100 - 5 / 10) * (2 / 10) }

/-- The shell loop of `makeElectronsForElement` (lines 110-119): walk the
`(capacity, radius)` table with shell index `s`, remaining electron
budget and `rand()` cursor `k`. -/
def fillShells (shells : List (Int × ℚ)) (s : Nat) (remaining : Int) (k : Nat)
    (rng : Nat → Nat) : List Electron :=
  match shells with
  | [] => []
  | (cap, rad) :: rest =>
    if remaining > 0 then
      let inShell := min remaining cap
      shellElectrons s rad inShell.toNat k rng
        ++ fillShells rest (s + 1) (remaining - inShell) (k + inShell.toNat) rng
    else []

/-- `makeElectronsForElement` (line 100): shell capacities {2,8,8,18},
radii {30,50,70,90}, electron budget capped at 24. -/
def makeElectronsForElement (atomicNumber : Int) (rng : Nat → Nat) : List Electron :=
  fillShells [(2, 30), (8, 50), (8, 70), (18, 90)] 0 (min atomicNumber 24) 0 rng

/-- The mutable simulation state of `main` (lines 133-141): atom and link
stores, id counter, current catalog index, and the drag state machine. -/
structure SimState where
  atoms : List Atom
  links : List Link
  nextId : Int
  selectedElement : Int
  dragging : Bool
  draggingId : Int
  dragOffset : Vec2
deriving Repr, DecidableEq

/-- The ids of the currently selected atoms, in store order (the `sel`
collection loop of `linkPair`, line 186, and the `toRemoveIds` loop of
`removeSelected`, line 160). -/
def selectedIds (st : SimState) : List Int :=
  (st.atoms.filter (fun a => a.selected)).map (fun a => a.id)

/-- `addAtom` (line 146): append a fresh atom with the next id, the
current catalog element, a random canvas position (the two position
draws are `pRng1`, `pRng2`) and generated electrons. -/
def addAtom (pRng1 pRng2 : Nat) (rng : Nat → Nat) (st : SimState) : SimState :=
  let el := ELEMENTS.getD st.selectedElement.toNat ⟨"", "", 0, (0, 0, 0)⟩
  { st with
    atoms := st.atoms ++
      [{ id := st.nextId
         elementIndex := st.selectedElement
         pos := ⟨SIDEBAR_W + 100 + ((pRng1 % 600 : Nat) : ℚ), 100 + ((pRng2 % 500 : Nat) : ℚ)⟩
         electrons := makeElectronsForElement el.atomicNumber rng
         active := false
         selected := false }]
    nextId := st.nextId + 1 }

/-- The body of `removeSelected` (lines 158-168) applied per atom list:
keep atoms whose id is not in `toRemoveIds`, and links neither of whose
endpoints is in `toRemoveIds`. -/
def removeSelected (st : SimState) : SimState :=
  let toRemoveIds := selectedIds st
  { st with
    atoms := st.atoms.filter (fun a => !(toRemoveIds.contains a.id))
    links := st.links.filter
      (fun L => !(toRemoveIds.contains L.aId || toRemoveIds.contains L.bId)) }

/-- The per-atom effect of `toggleActiveSelected` (line 171). -/
def toggleAtom (a : Atom) : Atom :=
  if a.selected then { a with active := !a.active } else a

/-- `toggleActiveSelected` (line 170): flip `active` on every selected atom. -/
def toggleActiveSelected (st : SimState) : SimState :=
  { st with atoms := st.atoms.map toggleAtom }

/-- The per-atom effect of `scheduleSelected` (line 176) at simulation
time `t`. -/
def scheduleAtom (t : ℚ) (a : Atom) : Atom :=
  if a.selected then { a with scheduledStart := some (t + 2) } else a

/-- `scheduleSelected` (line 174): set `scheduledStart = t + 2.0` on every
selected atom, `t` being the simulation clock reading. -/
def scheduleSelected (t : ℚ) (st : SimState) : SimState :=
  { st with atoms := st.atoms.map (scheduleAtom t) }

/-- `clearAll` (line 179). -/
def clearAll (st : SimState) : SimState :=
  { st with atoms := [], links := [] }

/-- `linkPair` (line 184): if exactly two atoms are selected, canonicalize
the id pair (swap when `a > b`) and append the link unless it exists. -/
def linkPair (st : SimState) : SimState :=
  match selectedIds st with
  | [a, b] =>
    let a2 := if a > b then b else a
    let b2 := if a > b then a else b
    if st.links.any (fun L => L.aId == a2 && L.bId == b2) then st
    else { st with links := st.links ++ [⟨a2, b2⟩] }
  | _ => st

/-- The electron loop of the per-frame update (lines 321-323):
`angle += speed * (1/60)` for every electron. -/
def advanceElectrons (l : List Electron) : List Electron :=
  l.map fun e => { e with angle := e.angle + e.speed * (1 / 60) }

/-- The per-atom body of the per-frame update (lines 315-324) at
simulation time `t`: fire a due schedule (set `active`, clear
`scheduledStart`), then advance every electron of an active atom by
`speed * (1/60)`. -/
def updateAtom (t : ℚ) (a : Atom) : Atom :=
  let a1 :=
    match a.scheduledStart with
    | some ts => if ts ≤ t then { a with active := true, scheduledStart := none } else a
    | none => a
  if a1.active then { a1 with electrons := advanceElectrons a1.electrons }
  else a1

/-- The per-frame time update loop (lines 314-325). -/
def frameUpdate (t : ℚ) (st : SimState) : SimState :=
  { st with atoms := st.atoms.map (updateAtom t) }

/-- The canvas hit test of one atom (line 280):
`length(m - a.pos) <= a.nucleusRadius + 8`. The Euclidean norm
comparison is embedded square-free: for `d = m - pos`,
`sqrt(d.x² + d.y²) ≤ r  ↔  0 ≤ r ∧ d.x² + d.y² ≤ r²`. -/
def hitAtom (m : Vec2) (a : Atom) : Bool :=
  let r := a.nucleusRadius + 8
  decide (0 ≤ r) &&
    decide ((m.x - a.pos.x) ^ 2 + (m.y - a.pos.y) ^ 2 ≤ r ^ 2)

/-- The `hitId` loop (lines 278-283): the last atom in store order that
passes the hit test wins. -/
def findHitId (m : Vec2) (atoms : List Atom) : Option Int :=
  atoms.foldl (fun acc a => if hitAtom m a then some a.id else acc) none

/-- The `Prepare dragging` loop (lines 292-299): find the first atom with
the hit id, set the drag state and capture the grab offset. -/
def prepareDrag (m : Vec2) (hitId : Int) (st : SimState) : SimState :=
  match st.atoms.find? (fun a => a.id == hitId) with
  | some a =>
    { st with dragging := true, draggingId := hitId, dragOffset := m.sub a.pos }
  | none => st

/-- The canvas branch of the left-button press handler (lines 277-303):
hit-test; on a hit apply the selection rule (toggle under the ctrl
modifier, else exclusive select) and prepare dragging; on no hit clear
the selection. -/
def canvasPress (m : Vec2) (ctrl : Bool) (st : SimState) : SimState :=
  match findHitId m st.atoms with
  | some hitId =>
    let atoms1 :=
      if ctrl then
        st.atoms.map (fun a => if a.id == hitId then { a with selected := !a.selected } else a)
      else
        st.atoms.map (fun a => { a with selected := a.id == hitId })
    prepareDrag m hitId { st with atoms := atoms1 }
  | none => { st with atoms := st.atoms.map (fun a => { a with selected := false }) }

/-- The dragged-atom update of the mouse-move handler (lines 236-241):
set the position of the first atom whose id matches, leave the rest. -/
def moveFirst (idv : Int) (newPos : Vec2) : List Atom → List Atom
  | [] => []
  | a :: rest =>
    if a.id == idv then { a with pos := newPos } :: rest
    else a :: moveFirst idv newPos rest

/-- The drag part of the mouse-move handler (lines 235-242): while
dragging, the dragged atom's position becomes
`clampToCanvas(m - dragOffset)`. -/
def mouseMoveDrag (m : Vec2) (winW winH : ℚ) (st : SimState) : SimState :=
  if st.dragging && st.draggingId != -1 then
    { st with atoms :=
        moveFirst st.draggingId (clampToCanvas (m.sub st.dragOffset) winW winH) st.atoms }
  else st

/-- The link liveness invariant of the spec: both endpoints of every link
refer to an atom in the store. -/
def noDangling (st : SimState) : Prop :=
  ∀ L ∈ st.links, (∃ a ∈ st.atoms, a.id = L.aId) ∧ (∃ a ∈ st.atoms, a.id = L.bId)

instance (st : SimState) : Decidable (noDangling st) := by
  unfold noDangling; infer_instance

/-- The number of stored links with the given (already canonical) id
pair. -/
def countPair (st : SimState) (a b : Int) : Nat :=
  (st.links.filter (fun L => L.aId == a && L.bId == b)).length

/-- The all-zero random draw sequence, used to instantiate theorems at
concrete inputs. -/
def rngZero : Nat → Nat := fun _ => 0

/-- A concrete selected, idle, unscheduled atom, used to instantiate
theorems at concrete inputs. -/
def idleSelAtom : Atom :=
  { id := 1, elementIndex := 0, pos := ⟨400, 300⟩,
    electrons := [⟨30, 0, 7 / 10⟩], active := false, selected := true,
    scheduledStart := none }

/-- A second concrete selected atom. -/
def idleSelAtomB : Atom :=
  { id := 2, elementIndex := 1, pos := ⟨500, 400⟩,
    electrons := [⟨30, 0, 7 / 10⟩], active := false, selected := true,
    scheduledStart := none }

/-- A one-atom state with the atom selected. -/
def singleSelState : SimState :=
  { atoms := [idleSelAtom], links := [], nextId := 2, selectedElement := 0,
    dragging := false, draggingId := -1, dragOffset := ⟨0, 0⟩ }

/-- A two-atom state with both atoms selected. -/
def twoSelState : SimState :=
  { atoms := [idleSelAtom, idleSelAtomB], links := [], nextId := 3,
    selectedElement := 0, dragging := false, draggingId := -1, dragOffset := ⟨0, 0⟩ }

/-- A one-atom state with nothing selected and one link on the atom. -/
def noSelState : SimState :=
  { atoms := [{ idleSelAtom with selected := false }], links := [⟨1, 1⟩],
    nextId := 2, selectedElement := 0, dragging := false, draggingId := -1,
    dragOffset := ⟨0, 0⟩ }

/-- A one-atom state whose atom carries a pending schedule at time 2. -/
def schedState : SimState :=
  { atoms := [{ idleSelAtom with scheduledStart := some 2 }], links := [],
    nextId := 2, selectedElement := 0, dragging := false, draggingId := -1,
    dragOffset := ⟨0, 0⟩ }

/-- A two-atom state with only atom 1 selected and a link between atoms
1 and 2. -/
def linkedState : SimState :=
  { atoms := [idleSelAtom, { idleSelAtomB with selected := false }],
    links := [⟨1, 2⟩], nextId := 3, selectedElement := 0, dragging := false,
    draggingId := -1, dragOffset := ⟨0, 0⟩ }

/-- A one-atom state in the middle of a drag of atom 1 with grab offset
`(5, 5)`. -/
def dragState : SimState :=
  { atoms := [{ idleSelAtom with selected := false }], links := [],
    nextId := 2, selectedElement := 0, dragging := true, draggingId := 1,
    dragOffset := ⟨5, 5⟩ }

/-! ## General lemmas about the electron distribution generator -/

theorem shellElectrons_length (s : Nat) (rad : ℚ) (n k : Nat) (rng : Nat → Nat) :
    (shellElectrons s rad n k rng).length = n := by
  simp [shellElectrons]

theorem shellElectrons_radii (s : Nat) (rad : ℚ) (n k : Nat) (rng : Nat → Nat) :
    (shellElectrons s rad n k rng).map (fun e => e.radius) = List.replicate n rad := by
  simp only [shellElectrons, List.map_map]
  refine List.eq_replicate_iff.mpr ⟨by simp, ?_⟩
  intro b hb
  simp only [List.mem_map, List.mem_range] at hb
  obtain ⟨i, _, hi⟩ := hb
  simp [← hi, Function.comp]

/-- Every electron of a shell has the shell's base speed plus a jitter in
`[-1/10, 1/10]` (in fact at most `49/500`). -/
theorem speed_of_mem_shell (s : Nat) (rad : ℚ) (n k : Nat) (rng : Nat → Nat)
    (e : Electron) (h : e ∈ shellElectrons s rad n k rng) :
    e.radius = rad ∧
      ∃ j : ℚ, -(1 / 10) ≤ j ∧ j ≤ 1 / 10 ∧ e.speed = baseSpeed s + j := by
  simp only [shellElectrons, List.mem_map, List.mem_range] at h
  obtain ⟨i, _, hi⟩ := h
  subst hi
  refine ⟨rfl, ((rng (k + i) % 100 : Nat) : ℚ) / 100 * (2 / 10) - 1 / 10, ?_, ?_, ?_⟩
  · have h0 : (0 : ℚ) ≤ ((rng (k + i) % 100 : Nat) : ℚ) := by positivity
    linarith
  · have h99 : ((rng (k + i) % 100 : Nat) : ℚ) ≤ 99 := by
      have := Nat.mod_lt (rng (k + i)) (show 0 < 100 by norm_num)
      exact_mod_cast Nat.le_of_lt_succ this
    linarith
  · ring

/-- Membership in `fillShells` comes from one of the shells, whose index
offsets the starting shell index. -/
theorem mem_fillShells (shells : List (Int × ℚ)) (s : Nat) (r : Int) (k : Nat)
    (rng : Nat → Nat) (e : Electron) (h : e ∈ fillShells shells s r k rng) :
    ∃ idx : Fin shells.length, ∃ n k2 : Nat,
      e ∈ shellElectrons (s + idx) (shells.get idx).2 n k2 rng := by
  induction shells generalizing s r k with
  | nil => simp [fillShells] at h
  | cons hd rest ih =>
    obtain ⟨cap, rad⟩ := hd
    simp only [fillShells] at h
    split_ifs at h with hr
    · rcases List.mem_append.mp h with h1 | h2
      · exact ⟨⟨0, by simp⟩, (min r cap).toNat, k, by simpa using h1⟩
      · obtain ⟨idx, n, k2, hmem⟩ := ih (s + 1) (r - min r cap) (k + (min r cap).toNat) h2
        refine ⟨idx.succ, n, k2, ?_⟩
        have : s + 1 + (idx : Nat) = s + (idx.succ : Nat) := by
          simp [Fin.val_succ]; omega
        rw [this] at hmem
        simpa using hmem
    · simp at h

/-- The radii of the generated electrons, shell by shell: `min r 2`
electrons at radius 30, then `min (r-2) 8` at 50, `min (r-10) 8` at 70,
`min (r-18) 18` at 90, where `r = min Z 24` (counts clamp to 0 when the
budget is exhausted). -/
theorem makeElectrons_radii (Z : Int) (rng : Nat → Nat) :
    (makeElectronsForElement Z rng).map (fun e => e.radius) =
      List.replicate (min (min Z 24) 2).toNat 30 ++
      List.replicate (min (min Z 24 - 2) 8).toNat 50 ++
      List.replicate (min (min Z 24 - 10) 8).toNat 70 ++
      List.replicate (min (min Z 24 - 18) 18).toNat 90 := by
  set r := min Z 24 with hr
  simp only [makeElectronsForElement, fillShells, ← hr]
  by_cases h1 : r > 0
  · simp only [if_pos h1]
    by_cases h2 : r - min r 2 > 0
    · have e2 : (min (r - min r 2) 8).toNat = (min (r - 2) 8).toNat := by omega
      simp only [if_pos h2, e2]
      by_cases h3 : r - min r 2 - min (r - min r 2) 8 > 0
      · have e3 : (min (r - min r 2 - min (r - min r 2) 8) 8).toNat =
            (min (r - 10) 8).toNat := by omega
        simp only [if_pos h3, e3]
        by_cases h4 : r - min r 2 - min (r - min r 2) 8 -
            min (r - min r 2 - min (r - min r 2) 8) 8 > 0
        · have e4 : (min (r - min r 2 - min (r - min r 2) 8 -
              min (r - min r 2 - min (r - min r 2) 8) 8) 18).toNat =
              (min (r - 18) 18).toNat := by omega
          simp only [if_pos h4, e4]
          simp [shellElectrons_radii, List.map_append, List.append_assoc]
        · have e4 : (min (r - 18) 18).toNat = 0 := by omega
          simp only [if_neg h4, e4]
          simp [shellElectrons_radii, List.map_append, List.append_assoc]
      · have e3 : (min (r - 10) 8).toNat = 0 := by omega
        have e4 : (min (r - 18) 18).toNat = 0 := by omega
        simp only [if_neg h3, e3, e4]
        simp [shellElectrons_radii, List.map_append, List.append_assoc]
    · have e2 : (min (r - 2) 8).toNat = 0 := by omega
      have e3 : (min (r - 10) 8).toNat = 0 := by omega
      have e4 : (min (r - 18) 18).toNat = 0 := by omega
      simp only [if_neg h2, e2, e3, e4]
      simp [shellElectrons_radii, List.map_append]
  · have e1 : (min r 2).toNat = 0 := by omega
    have e2 : (min (r - 2) 8).toNat = 0 := by omega
    have e3 : (min (r - 10) 8).toNat = 0 := by omega
    have e4 : (min (r - 18) 18).toNat = 0 := by omega
    simp [if_neg h1, e1, e2, e3, e4]

theorem makeElectrons_length (Z : Int) (rng : Nat → Nat) :
    (makeElectronsForElement Z rng).length = (min Z 24).toNat := by
  have h := congrArg List.length (makeElectrons_radii Z rng)
  simp only [List.length_map, List.length_append, List.length_replicate] at h
  rw [h]
  omega

/-! ## Claim theorems -/

/-- C2: the electron sequence for atomic number `Z` has length `Z` for
`1 ≤ Z ≤ 24`, length 24 for `Z > 24` and length 0 for `Z ≤ 0`; the
shells of capacities {2, 8, 8, 18} and radii {30, 50, 70, 90} are filled
in order, each taking `min(remaining, capacity)` occupants, and no
electron lies beyond the fourth shell. -/
theorem C2_electron_count_and_shells (Z : Int) (rng : Nat → Nat) :
    ((1 ≤ Z ∧ Z ≤ 24) → (makeElectronsForElement Z rng).length = Z.toNat) ∧
    (24 < Z → (makeElectronsForElement Z rng).length = 24) ∧
    (Z ≤ 0 → (makeElectronsForElement Z rng).length = 0) ∧
    (makeElectronsForElement Z rng).map (fun e => e.radius) =
      List.replicate (min (min Z 24) 2).toNat 30 ++
      List.replicate (min (min Z 24 - 2) 8).toNat 50 ++
      List.replicate (min (min Z 24 - 10) 8).toNat 70 ++
      List.replicate (min (min Z 24 - 18) 18).toNat 90 := by
  refine ⟨?_, ?_, ?_, makeElectrons_radii Z rng⟩
  · rintro ⟨h1, h2⟩
    rw [makeElectrons_length]
    omega
  · intro h
    rw [makeElectrons_length]
    omega
  · intro h
    rw [makeElectrons_length]
    omega

/-- Witness for C2 at `Z = 11` (Sodium) and `Z = 30`, `Z = -1`. -/
theorem C2_electron_count_and_shells_witness :
    ((1 ≤ (11 : Int) ∧ (11 : Int) ≤ 24) ∧
      (makeElectronsForElement 11 rngZero).length = (11 : Int).toNat) ∧
    ((24 : Int) < 30 ∧ (makeElectronsForElement 30 rngZero).length = 24) ∧
    ((-1 : Int) ≤ 0 ∧ (makeElectronsForElement (-1) rngZero).length = 0) := by
  refine ⟨⟨⟨by norm_num, by norm_num⟩, ?_⟩, ⟨by norm_num, ?_⟩, ⟨by norm_num, ?_⟩⟩
  · exact (C2_electron_count_and_shells 11 rngZero).1 ⟨by norm_num, by norm_num⟩
  · exact (C2_electron_count_and_shells 30 rngZero).2.1 (by norm_num)
  · exact (C2_electron_count_and_shells (-1) rngZero).2.2.1 (by norm_num)

/-- C9: every generated electron belongs to a shell `s ≤ 3`; its speed is
the base value (`+0.8` for even `s`, `-0.5` for odd `s`) times
`(1 - 0.1·s)`, plus a jitter that lies in `[-0.1, +0.1]` for every value
of the underlying random draw. -/
theorem C9_speed_base_and_jitter (Z : Int) (rng : Nat → Nat) (e : Electron)
    (h : e ∈ makeElectronsForElement Z rng) :
    ∃ s : Nat, s ≤ 3 ∧ e.radius = [(30 : ℚ), 50, 70, 90].getD s 0 ∧
      ∃ j : ℚ, -(1 / 10) ≤ j ∧ j ≤ 1 / 10 ∧
        e.speed = (if s % 2 == 0 then (8 : ℚ) / 10 else -(5 / 10)) *
          (1 - (s : ℚ) * (1 / 10)) + j := by
  obtain ⟨idx, n, k2, hmem⟩ := mem_fillShells _ 0 (min Z 24) 0 rng e h
  obtain ⟨hrad, j, hj1, hj2, hspeed⟩ := speed_of_mem_shell _ _ _ _ _ _ hmem
  have hlt : (idx : Nat) < 4 := by simp
  refine ⟨(idx : Nat), by omega, ?_, j, hj1, hj2, ?_⟩
  · rw [hrad]
    fin_cases idx <;> rfl
  · rw [hspeed]
    simp only [Nat.zero_add, baseSpeed]

/-- Witness for C9: the first electron generated for Lithium (`Z = 3`)
under the all-zero draw sequence. -/
theorem C9_speed_base_and_jitter_witness :
    (⟨30, 0, 7 / 10⟩ : Electron) ∈ makeElectronsForElement 3 rngZero ∧
      (∃ s : Nat, s ≤ 3 ∧ (⟨30, 0, 7 / 10⟩ : Electron).radius = [(30 : ℚ), 50, 70, 90].getD s 0 ∧
        ∃ j : ℚ, -(1 / 10) ≤ j ∧ j ≤ 1 / 10 ∧
          (⟨30, 0, 7 / 10⟩ : Electron).speed = (if s % 2 == 0 then (8 : ℚ) / 10 else -(5 / 10)) *
            (1 - (s : ℚ) * (1 / 10)) + j) := by
  have hmem : (⟨30, 0, 7 / 10⟩ : Electron) ∈ makeElectronsForElement 3 rngZero := by
    norm_num [makeElectronsForElement, fillShells, shellElectrons, rngZero, baseSpeed, piF]
  exact ⟨hmem, C9_speed_base_and_jitter 3 rngZero _ hmem⟩

/-- C3: scheduling a selected idle atom at time `t0` sets
`scheduledStart = t0 + 2`; a per-frame update strictly before that
leaves the atom unchanged (inactive, schedule pending); an update at or
after it sets `active` and clears the schedule in the same update, and
once fired the schedule is gone, so no later update can fire it
again. -/
theorem C3_schedule_fires_exactly_once (a : Atom) (t0 t t2 : ℚ)
    (hsel : a.selected = true) (hact : a.active = false) :
    (scheduleAtom t0 a).scheduledStart = some (t0 + 2) ∧
    (t < t0 + 2 → updateAtom t (scheduleAtom t0 a) = scheduleAtom t0 a ∧
      (updateAtom t (scheduleAtom t0 a)).active = false ∧
      (updateAtom t (scheduleAtom t0 a)).scheduledStart = some (t0 + 2)) ∧
    (t0 + 2 ≤ t →
      (updateAtom t (scheduleAtom t0 a)).active = true ∧
      (updateAtom t (scheduleAtom t0 a)).scheduledStart = none ∧
      (updateAtom t2 (updateAtom t (scheduleAtom t0 a))).active = true ∧
      (updateAtom t2 (updateAtom t (scheduleAtom t0 a))).scheduledStart = none) := by
  have hs : scheduleAtom t0 a = { a with scheduledStart := some (t0 + 2) } := by
    simp [scheduleAtom, hsel]
  refine ⟨by simp [hs], ?_, ?_⟩
  · intro hlt
    have heq : updateAtom t (scheduleAtom t0 a) = scheduleAtom t0 a := by
      simp [hs, updateAtom, not_le.mpr hlt, hact]
    refine ⟨heq, ?_, ?_⟩ <;> (rw [heq, hs]; try simp [hact])
  · intro hge
    have h1 : updateAtom t (scheduleAtom t0 a) =
        { a with active := true, scheduledStart := none,
                 electrons := advanceElectrons a.electrons } := by
      simp [hs, updateAtom, hge]
    refine ⟨by simp [h1], by simp [h1], ?_, ?_⟩ <;> rw [h1] <;> simp [updateAtom]

/-- Witness for C3 at `t0 = 5` (so `scheduledStart = 7`), with a
pre-fire update at `t = 6.9` and a firing update at `t = 7.1` followed
by a further update at `t = 8`. -/
theorem C3_schedule_fires_exactly_once_witness :
    idleSelAtom.selected = true ∧ idleSelAtom.active = false ∧
    (69 / 10 : ℚ) < 5 + 2 ∧ (5 + 2 : ℚ) ≤ 71 / 10 ∧
    (updateAtom (69 / 10) (scheduleAtom 5 idleSelAtom) = scheduleAtom 5 idleSelAtom) ∧
    (updateAtom (71 / 10) (scheduleAtom 5 idleSelAtom)).active = true ∧
    (updateAtom (71 / 10) (scheduleAtom 5 idleSelAtom)).scheduledStart = none ∧
    (updateAtom 8 (updateAtom (71 / 10) (scheduleAtom 5 idleSelAtom))).active = true ∧
    (updateAtom 8 (updateAtom (71 / 10) (scheduleAtom 5 idleSelAtom))).scheduledStart = none := by
  have h1 := (C3_schedule_fires_exactly_once idleSelAtom 5 (69 / 10) 8 rfl rfl).2.1
    (by norm_num)
  have h2 := (C3_schedule_fires_exactly_once idleSelAtom 5 (71 / 10) 8 rfl rfl).2.2
    (by norm_num)
  exact ⟨rfl, rfl, by norm_num, by norm_num, h1.1, h2.1, h2.2.1, h2.2.2.1, h2.2.2.2⟩

/-- C8: in a per-frame update, the electrons of an atom that comes out
active are exactly the old electrons with each angle advanced by
`speed * (1/60)` (radii and speeds untouched); the electrons of an atom
that comes out inactive are untouched; an already-active atom always
advances, an inactive atom with no pending (or no due) schedule never
does; and toggling `active` never modifies the electrons. -/
theorem C8_orbit_advance_iff_active (a : Atom) (t : ℚ) :
    ((updateAtom t a).active = true →
      (updateAtom t a).electrons = advanceElectrons a.electrons) ∧
    ((updateAtom t a).active = false → (updateAtom t a).electrons = a.electrons) ∧
    (a.active = true →
      (updateAtom t a).electrons = advanceElectrons a.electrons) ∧
    (a.active = false → a.scheduledStart = none → updateAtom t a = a) ∧
    (∀ e ∈ advanceElectrons a.electrons, ∃ e0 ∈ a.electrons,
      e.radius = e0.radius ∧ e.speed = e0.speed ∧
      e.angle = e0.angle + e0.speed * (1 / 60)) ∧
    ((updateAtom t a).electrons.map (fun e => e.radius) =
      a.electrons.map (fun e => e.radius)) ∧
    ((updateAtom t a).electrons.map (fun e => e.speed) =
      a.electrons.map (fun e => e.speed)) ∧
    (toggleAtom a).electrons = a.electrons := by
  have htog : (toggleAtom a).electrons = a.electrons := by
    unfold toggleAtom
    split_ifs <;> rfl
  have hadv : ∀ e ∈ advanceElectrons a.electrons, ∃ e0 ∈ a.electrons,
      e.radius = e0.radius ∧ e.speed = e0.speed ∧
      e.angle = e0.angle + e0.speed * (1 / 60) := by
    intro e he
    simp only [advanceElectrons, List.mem_map] at he
    obtain ⟨e0, he0, heq⟩ := he
    exact ⟨e0, he0, by simp [← heq]⟩
  rcases hs : a.scheduledStart with _ | ts
  · rcases ha : a.active with _ | _
    · have hu : updateAtom t a = a := by simp [updateAtom, hs, ha]
      refine ⟨?_, ?_, ?_, ?_, hadv, ?_, ?_, htog⟩ <;>
        simp [hu, ha, hs]
    · have hu : updateAtom t a = { a with electrons := advanceElectrons a.electrons } := by
        simp [updateAtom, hs, ha]
      refine ⟨?_, ?_, ?_, ?_, hadv, ?_, ?_, htog⟩ <;>
        simp [hu, ha, hs, advanceElectrons, List.map_map, Function.comp]
  · by_cases hts : ts ≤ t
    · have hu : updateAtom t a =
          { a with active := true, scheduledStart := none,
                   electrons := advanceElectrons a.electrons } := by
        simp [updateAtom, hs, hts]
      refine ⟨?_, ?_, ?_, ?_, hadv, ?_, ?_, htog⟩ <;>
        simp [hu, hs, advanceElectrons, List.map_map, Function.comp]
    · rcases ha : a.active with _ | _
      · have hu : updateAtom t a = a := by simp [updateAtom, hs, hts, ha]
        refine ⟨?_, ?_, ?_, ?_, hadv, ?_, ?_, htog⟩ <;>
          simp [hu, ha, hs]
      · have hu : updateAtom t a = { a with electrons := advanceElectrons a.electrons } := by
          simp [updateAtom, hs, hts, ha]
        refine ⟨?_, ?_, ?_, ?_, hadv, ?_, ?_, htog⟩ <;>
          simp [hu, ha, hs, advanceElectrons, List.map_map, Function.comp]

/-- Witness for C8: the concrete idle atom (no schedule) is frozen by an
update, and an activated copy advances its single electron's angle. -/
theorem C8_orbit_advance_iff_active_witness :
    (updateAtom 1 idleSelAtom = idleSelAtom) ∧
    (updateAtom 1 { idleSelAtom with active := true }).electrons =
      [⟨30, 0 + (7 / 10) * (1 / 60), 7 / 10⟩] := by
  constructor
  · exact (C8_orbit_advance_iff_active idleSelAtom 1).2.2.2.1 rfl rfl
  · have h := (C8_orbit_advance_iff_active { idleSelAtom with active := true } 1).2.2.1 rfl
    rw [h]
    simp [idleSelAtom, advanceElectrons]

/-- C6: with an empty selection, `toggleActiveSelected`,
`scheduleSelected`, `linkPair` and `removeSelected` all leave the state
(atoms, links, selection and all) exactly unchanged; they are total
functions, so no error is signalled. -/
theorem C6_empty_selection_noop (st : SimState) (t : ℚ)
    (h : ∀ a ∈ st.atoms, a.selected = false) :
    toggleActiveSelected st = st ∧ scheduleSelected t st = st ∧
    linkPair st = st ∧ removeSelected st = st := by
  have hids : selectedIds st = [] := by
    unfold selectedIds
    rw [List.filter_eq_nil_iff.mpr (by intro a ha; simp [h a ha])]
    rfl
  have hmap : ∀ f : Atom → Atom, (∀ a ∈ st.atoms, f a = a) → st.atoms.map f = st.atoms := by
    intro f hf
    calc st.atoms.map f = st.atoms.map id :=
          List.map_congr_left (fun a ha => by rw [hf a ha]; rfl)
      _ = st.atoms := List.map_id _
  refine ⟨?_, ?_, ?_, ?_⟩
  · unfold toggleActiveSelected
    rw [hmap toggleAtom (fun a ha => by simp [toggleAtom, h a ha])]
  · unfold scheduleSelected
    rw [hmap (scheduleAtom t) (fun a ha => by simp [scheduleAtom, h a ha])]
  · unfold linkPair
    rw [hids]
  · unfold removeSelected
    rw [hids]
    simp

/-- Witness for C6 on a concrete unselected one-atom, one-link state. -/
theorem C6_empty_selection_noop_witness :
    (∀ a ∈ noSelState.atoms, a.selected = false) ∧
    toggleActiveSelected noSelState = noSelState ∧
    scheduleSelected 3 noSelState = noSelState ∧
    linkPair noSelState = noSelState ∧ removeSelected noSelState = noSelState := by
  have h : ∀ a ∈ noSelState.atoms, a.selected = false := by
    intro a ha
    simp only [noSelState, List.mem_singleton] at ha
    simp [ha]
  exact ⟨h, C6_empty_selection_noop noSelState 3 h⟩

theorem linkPair_atoms (st : SimState) : (linkPair st).atoms = st.atoms := by
  unfold linkPair
  split
  · dsimp only
    split_ifs <;> rfl
  · rfl

theorem selectedIds_linkPair (st : SimState) :
    selectedIds (linkPair st) = selectedIds st := by
  unfold selectedIds
  rw [linkPair_atoms]

theorem linkPair_length_ne_two (st : SimState)
    (h : (selectedIds st).length ≠ 2) : linkPair st = st := by
  unfold linkPair
  rcases hsel : selectedIds st with _ | ⟨a, _ | ⟨b, _ | ⟨c, rest⟩⟩⟩ <;>
    first
      | rfl
      | (exact absurd (by rw [hsel]; rfl) h)

theorem pair_any_iff_mem (links : List Link) (x y : Int) :
    links.any (fun L => L.aId == x && L.bId == y) = true ↔ (⟨x, y⟩ : Link) ∈ links := by
  simp only [List.any_eq_true, Bool.and_eq_true, beq_iff_eq]
  constructor
  · rintro ⟨L, hL, h1, h2⟩
    cases L
    subst h1
    subst h2
    exact hL
  · intro hmem
    exact ⟨_, hmem, rfl, rfl⟩

theorem linkPair_eq_of_two (st : SimState) (i j : Int)
    (h : selectedIds st = [i, j]) :
    linkPair st =
      if st.links.any (fun L => L.aId == min i j && L.bId == max i j) then st
      else { st with links := st.links ++ [⟨min i j, max i j⟩] } := by
  have hc1 : (if i > j then j else i) = min i j := by split_ifs <;> omega
  have hc2 : (if i > j then i else j) = max i j := by split_ifs <;> omega
  unfold linkPair
  rw [h]
  dsimp only
  rw [hc1, hc2]

theorem countPair_pos_iff (st : SimState) (x y : Int) :
    0 < countPair st x y ↔ (⟨x, y⟩ : Link) ∈ st.links := by
  rw [← pair_any_iff_mem st.links x y]
  unfold countPair
  rw [List.length_pos_iff_ne_nil]
  constructor
  · intro hne
    rw [List.any_eq_true]
    obtain ⟨L, hL⟩ := List.exists_mem_of_ne_nil _ hne
    have := List.mem_filter.mp hL
    exact ⟨L, this.1, this.2⟩
  · intro hany hnil
    obtain ⟨L, hL, hp⟩ := List.any_eq_true.mp hany
    have hmem : L ∈ st.links.filter (fun L => L.aId == x && L.bId == y) :=
      List.mem_filter.mpr ⟨hL, hp⟩
    rw [hnil] at hmem
    simp at hmem

/-- C4: with exactly two selected atoms, `linkPair` ensures the canonical
(smaller id first) pair is present, adds nothing but that pair, and is
idempotent: two invocations under the same selection leave exactly one
link with that pair; with a selection of any other size it leaves the
state untouched. -/
theorem C4_linkPair_canonical_dedup (st : SimState) (i j : Int) :
    ((selectedIds st).length ≠ 2 → linkPair st = st) ∧
    (selectedIds st = [i, j] →
      (⟨min i j, max i j⟩ : Link) ∈ (linkPair st).links ∧
      (∀ L ∈ (linkPair st).links, L ∈ st.links ∨ L = (⟨min i j, max i j⟩ : Link)) ∧
      (countPair st (min i j) (max i j) ≤ 1 →
        countPair (linkPair (linkPair st)) (min i j) (max i j) = 1)) ∧
    linkPair (linkPair st) = linkPair st := by
  have hidem : ∀ s : SimState, linkPair (linkPair s) = linkPair s := by
    intro s
    by_cases hlen : (selectedIds s).length = 2
    · obtain ⟨x, y, hxy⟩ : ∃ x y, selectedIds s = [x, y] := by
        rcases hsel : selectedIds s with _ | ⟨a, _ | ⟨b, _ | ⟨c, rest⟩⟩⟩
        · rw [hsel] at hlen
          simp only [List.length_nil] at hlen
          omega
        · rw [hsel] at hlen
          simp only [List.length_cons, List.length_nil] at hlen
          omega
        · exact ⟨a, b, rfl⟩
        · rw [hsel] at hlen
          simp only [List.length_cons] at hlen
          omega
      have h1 := linkPair_eq_of_two s x y hxy
      have hsel2 : selectedIds (linkPair s) = [x, y] := by
        rw [selectedIds_linkPair, hxy]
      have h2 := linkPair_eq_of_two (linkPair s) x y hsel2
      rw [h2]
      have hmem : (⟨min x y, max x y⟩ : Link) ∈ (linkPair s).links := by
        rw [h1]
        split_ifs with hany
        · exact (pair_any_iff_mem _ _ _).mp hany
        · simp
      rw [if_pos ((pair_any_iff_mem _ _ _).mpr hmem)]
    · have := linkPair_length_ne_two s hlen
      rw [this, this]
  refine ⟨linkPair_length_ne_two st, ?_, hidem st⟩
  intro h
  have heq := linkPair_eq_of_two st i j h
  by_cases hany : st.links.any (fun L => L.aId == min i j && L.bId == max i j) = true
  · rw [heq, if_pos hany]
    have hmem := (pair_any_iff_mem _ _ _).mp hany
    refine ⟨hmem, fun L hL => Or.inl hL, ?_⟩
    intro hle
    have hpos : 0 < countPair st (min i j) (max i j) :=
      (countPair_pos_iff st _ _).mpr hmem
    have hone : countPair st (min i j) (max i j) = 1 := by omega
    have hnoop : linkPair st = st := by rw [heq, if_pos hany]
    rw [hnoop]
    exact hone
  · rw [heq, if_neg hany]
    refine ⟨by simp, ?_, ?_⟩
    · intro L hL
      rcases List.mem_append.mp hL with h1 | h1
      · exact Or.inl h1
      · exact Or.inr (by simpa using h1)
    · intro _
      have hz : countPair st (min i j) (max i j) = 0 := by
        by_contra hnz
        exact hany ((pair_any_iff_mem _ _ _).mpr
          ((countPair_pos_iff st _ _).mp (by omega)))
      have hone : countPair { st with links := st.links ++ [⟨min i j, max i j⟩] }
          (min i j) (max i j) = 1 := by
        unfold countPair at hz ⊢
        rw [List.filter_append, List.length_append, hz]
        simp
      have hsel2 : selectedIds { st with links := st.links ++ [⟨min i j, max i j⟩] } = [i, j] := h
      have heq2 := linkPair_eq_of_two _ i j hsel2
      rw [heq2, if_pos ((pair_any_iff_mem _ _ _).mpr (by simp))]
      exact hone

/-- Witness for C4 on the concrete two-selected-atom state: two calls of
`linkPair` yield exactly one link, the canonical pair `(1, 2)`. -/
theorem C4_linkPair_canonical_dedup_witness :
    selectedIds twoSelState = [1, 2] ∧
    countPair twoSelState (min 1 2) (max 1 2) ≤ 1 ∧
    countPair (linkPair (linkPair twoSelState)) (min 1 2) (max 1 2) = 1 ∧
    (linkPair twoSelState).links = [⟨1, 2⟩] := by
  have hsel : selectedIds twoSelState = [1, 2] := rfl
  refine ⟨hsel, ?_, ?_, ?_⟩
  · show countPair twoSelState 1 2 ≤ 1
    simp [countPair, twoSelState]
  · exact ((C4_linkPair_canonical_dedup twoSelState 1 2).2.1 hsel).2.2
      (by simp [countPair, twoSelState])
  · rfl

theorem mem_selectedIds (st : SimState) (i : Int) (h : i ∈ selectedIds st) :
    ∃ a ∈ st.atoms, a.id = i := by
  simp only [selectedIds, List.mem_map, List.mem_filter] at h
  obtain ⟨a, ⟨ha, -⟩, hid⟩ := h
  exact ⟨a, ha, hid⟩

theorem id_mem_selectedIds (st : SimState) (a : Atom) (ha : a ∈ st.atoms)
    (hsel : a.selected = true) : a.id ∈ selectedIds st := by
  simp only [selectedIds, List.mem_map, List.mem_filter]
  exact ⟨a, ⟨ha, hsel⟩, rfl⟩

/-- A link survives `linkPair` only if it was already present or if both
its endpoints are ids of stored (indeed selected) atoms. -/
theorem linkPair_links_characterize (st : SimState) (L : Link)
    (hL : L ∈ (linkPair st).links) :
    L ∈ st.links ∨
      ((∃ a ∈ st.atoms, a.id = L.aId) ∧ (∃ a ∈ st.atoms, a.id = L.bId)) := by
  by_cases hlen : (selectedIds st).length = 2
  · obtain ⟨x, y, hxy⟩ : ∃ x y, selectedIds st = [x, y] := by
      rcases hsel : selectedIds st with _ | ⟨a, _ | ⟨b, _ | ⟨c, rest⟩⟩⟩
      · rw [hsel] at hlen
        simp only [List.length_nil] at hlen
        omega
      · rw [hsel] at hlen
        simp only [List.length_cons, List.length_nil] at hlen
        omega
      · exact ⟨a, b, rfl⟩
      · rw [hsel] at hlen
        simp only [List.length_cons] at hlen
        omega
    rw [linkPair_eq_of_two st x y hxy] at hL
    split_ifs at hL with hany
    · exact Or.inl hL
    · rcases List.mem_append.mp hL with h1 | h1
      · exact Or.inl h1
      · have hLpair : L = (⟨min x y, max x y⟩ : Link) := by simpa using h1
        have hx : x ∈ selectedIds st := by rw [hxy]; simp
        have hy : y ∈ selectedIds st := by rw [hxy]; simp
        obtain ⟨ax, hax, haxid⟩ := mem_selectedIds st x hx
        obtain ⟨ay, hay, hayid⟩ := mem_selectedIds st y hy
        right
        subst hLpair
        rcases le_total x y with hle | hle
        · constructor
          · exact ⟨ax, hax, by simp [min_eq_left hle, haxid]⟩
          · exact ⟨ay, hay, by simp [max_eq_right hle, hayid]⟩
        · constructor
          · exact ⟨ay, hay, by simp [min_eq_right hle, hayid]⟩
          · exact ⟨ax, hax, by simp [max_eq_left hle, haxid]⟩
  · rw [linkPair_length_ne_two st hlen] at hL
    exact Or.inl hL

theorem contains_iff_mem_ids (l : List Int) (i : Int) :
    l.contains i = true ↔ i ∈ l := by
  simp [List.contains_iff_exists_mem_beq, beq_iff_eq]

theorem live_map (atoms : List Atom) (f : Atom → Atom) (i : Int)
    (hf : ∀ a, (f a).id = a.id) (h : ∃ a ∈ atoms, a.id = i) :
    ∃ a ∈ atoms.map f, a.id = i := by
  obtain ⟨a, ha, hid⟩ := h
  exact ⟨f a, List.mem_map_of_mem f ha, by rw [hf a]; exact hid⟩

theorem live_moveFirst (atoms : List Atom) (idv : Int) (p : Vec2) (i : Int)
    (h : ∃ a ∈ atoms, a.id = i) :
    ∃ a ∈ moveFirst idv p atoms, a.id = i := by
  induction atoms with
  | nil => simp at h
  | cons b rest ih =>
    obtain ⟨a, ha, hid⟩ := h
    rcases List.mem_cons.mp ha with h1 | h1
    · subst h1
      by_cases hb : (a.id == idv) = true
      · exact ⟨{ a with pos := p }, by simp [moveFirst, hb], hid⟩
      · exact ⟨a, by simp [moveFirst, hb], hid⟩
    · by_cases hb : (b.id == idv) = true
      · exact ⟨a, by simp [moveFirst, hb, h1], hid⟩
      · obtain ⟨a2, ha2, hid2⟩ := ih ⟨a, h1, hid⟩
        exact ⟨a2, by simp [moveFirst, hb, ha2], hid2⟩

theorem prepareDrag_atoms_links (m : Vec2) (hitId : Int) (st : SimState) :
    (prepareDrag m hitId st).atoms = st.atoms ∧
      (prepareDrag m hitId st).links = st.links := by
  unfold prepareDrag
  split <;> exact ⟨rfl, rfl⟩

/-- C5: `removeSelected` removes every selected atom and every link with
an endpoint among the removed ids, and the no-dangling-links invariant
(both endpoints of every link name a stored atom) is preserved by every
operation of the core. -/
theorem C5_remove_prunes_no_dangling (st : SimState) (t : ℚ) (m : Vec2)
    (ctrl : Bool) (w hgt : ℚ) (p1 p2 : Nat) (rng : Nat → Nat) :
    (∀ L ∈ st.links,
      (∃ a ∈ st.atoms, a.selected = true ∧ (a.id = L.aId ∨ a.id = L.bId)) →
        L ∉ (removeSelected st).links) ∧
    (∀ a ∈ (removeSelected st).atoms, a.selected = false) ∧
    (noDangling st →
      noDangling (removeSelected st) ∧ noDangling (linkPair st) ∧
      noDangling (toggleActiveSelected st) ∧ noDangling (scheduleSelected t st) ∧
      noDangling (clearAll st) ∧ noDangling (frameUpdate t st) ∧
      noDangling (addAtom p1 p2 rng st) ∧ noDangling (canvasPress m ctrl st) ∧
      noDangling (mouseMoveDrag m w hgt st)) := by
  refine ⟨?_, ?_, ?_⟩
  · intro L hL hsel hmem
    obtain ⟨a, ha, hasel, hid⟩ := hsel
    simp only [removeSelected, List.mem_filter] at hmem
    obtain ⟨-, hkeep⟩ := hmem
    have haid : a.id ∈ selectedIds st := id_mem_selectedIds st a ha hasel
    rw [Bool.not_eq_eq_eq_not, Bool.not_true, Bool.or_eq_false_iff] at hkeep
    rcases hid with h1 | h1
    · rw [h1] at haid
      have hc := (contains_iff_mem_ids (selectedIds st) L.aId).mpr haid
      rw [hkeep.1] at hc
      simp at hc
    · rw [h1] at haid
      have hc := (contains_iff_mem_ids (selectedIds st) L.bId).mpr haid
      rw [hkeep.2] at hc
      simp at hc
  · intro a ha
    simp only [removeSelected, List.mem_filter] at ha
    obtain ⟨hmem, hkeep⟩ := ha
    by_contra hne
    have hasel : a.selected = true := by
      cases hsel : a.selected
      · exact absurd hsel hne
      · rfl
    have haid : a.id ∈ selectedIds st := id_mem_selectedIds st a hmem hasel
    rw [((contains_iff_mem_ids _ _).mpr haid : (selectedIds st).contains a.id = true)]
      at hkeep
    simp at hkeep
  · intro hd
    refine ⟨?_, ?_, ?_, ?_, ?_, ?_, ?_, ?_, ?_⟩
    · intro L hL
      simp only [removeSelected, List.mem_filter] at hL
      obtain ⟨hLmem, hkeep⟩ := hL
      rw [Bool.not_eq_eq_eq_not, Bool.not_true, Bool.or_eq_false_iff] at hkeep
      obtain ⟨⟨ax, hax, haxid⟩, ⟨bx, hbx, hbxid⟩⟩ := hd L hLmem
      constructor
      · refine ⟨ax, ?_, haxid⟩
        simp only [removeSelected, List.mem_filter]
        refine ⟨hax, ?_⟩
        rw [Bool.not_eq_eq_eq_not, Bool.not_true]
        rw [haxid]
        exact hkeep.1
      · refine ⟨bx, ?_, hbxid⟩
        simp only [removeSelected, List.mem_filter]
        refine ⟨hbx, ?_⟩
        rw [Bool.not_eq_eq_eq_not, Bool.not_true]
        rw [hbxid]
        exact hkeep.2
    · intro L hL
      rcases linkPair_links_characterize st L hL with h1 | h1
      · obtain ⟨ha, hb⟩ := hd L h1
        rw [noDangling] at *
        rw [linkPair_atoms]
        exact ⟨ha, hb⟩
      · rw [linkPair_atoms]
        exact h1
    · intro L hL
      obtain ⟨ha, hb⟩ := hd L hL
      exact ⟨live_map _ _ _ (fun a => by simp [toggleAtom]; split_ifs <;> rfl) ha,
        live_map _ _ _ (fun a => by simp [toggleAtom]; split_ifs <;> rfl) hb⟩
    · intro L hL
      obtain ⟨ha, hb⟩ := hd L hL
      exact ⟨live_map _ _ _ (fun a => by simp [scheduleAtom]; split_ifs <;> rfl) ha,
        live_map _ _ _ (fun a => by simp [scheduleAtom]; split_ifs <;> rfl) hb⟩
    · intro L hL
      simp [clearAll] at hL
    · intro L hL
      obtain ⟨ha, hb⟩ := hd L hL
      have hid : ∀ a : Atom, (updateAtom t a).id = a.id := by
        intro a
        unfold updateAtom
        rcases a.scheduledStart <;> dsimp only <;> split_ifs <;> rfl
      exact ⟨live_map _ _ _ hid ha, live_map _ _ _ hid hb⟩
    · intro L hL
      obtain ⟨⟨ax, hax, haxid⟩, ⟨bx, hbx, hbxid⟩⟩ := hd L hL
      exact ⟨⟨ax, by simp [addAtom, hax], haxid⟩, ⟨bx, by simp [addAtom, hbx], hbxid⟩⟩
    · intro L hL
      unfold canvasPress at hL ⊢
      rcases hfind : findHitId m st.atoms with _ | hitId
      · simp only [hfind] at hL ⊢
        obtain ⟨ha, hb⟩ := hd L hL
        exact ⟨live_map _ _ _ (fun a => rfl) ha, live_map _ _ _ (fun a => rfl) hb⟩
      · simp only [hfind] at hL ⊢
        have hpd := prepareDrag_atoms_links m hitId
        rw [(hpd _).2] at hL
        obtain ⟨ha, hb⟩ := hd L hL
        rw [(hpd _).1]
        split_ifs
        · exact ⟨live_map _ _ _ (fun a => by by_cases hc : (a.id == hitId) = true <;> simp [hc]) ha,
            live_map _ _ _ (fun a => by by_cases hc : (a.id == hitId) = true <;> simp [hc]) hb⟩
        · exact ⟨live_map _ _ _ (fun a => rfl) ha, live_map _ _ _ (fun a => rfl) hb⟩
    · intro L hL
      unfold mouseMoveDrag at hL ⊢
      split_ifs at hL ⊢ with hcond
      · obtain ⟨ha, hb⟩ := hd L hL
        exact ⟨live_moveFirst _ _ _ _ ha, live_moveFirst _ _ _ _ hb⟩
      · exact hd L hL

/-- Witness for C5 on the concrete linked state: atom 1 is selected and
an endpoint of the link `(1, 2)`; `removeSelected` removes the link, and
the no-dangling invariant holds before and after. -/
theorem C5_remove_prunes_no_dangling_witness :
    (⟨1, 2⟩ : Link) ∈ linkedState.links ∧
    (∃ a ∈ linkedState.atoms, a.selected = true ∧
      (a.id = (1 : Int) ∨ a.id = (2 : Int))) ∧
    (⟨1, 2⟩ : Link) ∉ (removeSelected linkedState).links ∧
    noDangling linkedState ∧ noDangling (removeSelected linkedState) := by
  have hL : (⟨1, 2⟩ : Link) ∈ linkedState.links := by simp [linkedState]
  have hsel : ∃ a ∈ linkedState.atoms, a.selected = true ∧
      (a.id = (1 : Int) ∨ a.id = (2 : Int)) := by
    refine ⟨idleSelAtom, by simp [linkedState], rfl, Or.inl rfl⟩
  have hd : noDangling linkedState := by
    intro L hLm
    simp only [linkedState, List.mem_singleton] at hLm
    subst hLm
    constructor
    · exact ⟨idleSelAtom, by simp [linkedState], rfl⟩
    · exact ⟨{ idleSelAtomB with selected := false }, by simp [linkedState], rfl⟩
  refine ⟨hL, hsel, ?_, hd, ?_⟩
  · exact (C5_remove_prunes_no_dangling linkedState 0 ⟨0, 0⟩ false 0 0 0 0 rngZero).1
      _ hL hsel
  · exact ((C5_remove_prunes_no_dangling linkedState 0 ⟨0, 0⟩ false 0 0 0 0 rngZero).2.2
      hd).1

theorem moveFirst_append (idv : Int) (p : Vec2) (pre post : List Atom) (a : Atom)
    (ha : a.id = idv) (hpre : ∀ b ∈ pre, b.id ≠ idv) :
    moveFirst idv p (pre ++ a :: post) = pre ++ { a with pos := p } :: post := by
  induction pre with
  | nil => simp [moveFirst, ha]
  | cons b rest ih =>
    have hb : (b.id == idv) = false := by
      simp [hpre b (List.mem_cons_self b rest)]
    have ih2 := ih (fun c hc => hpre c (List.mem_cons_of_mem b hc))
    simp only [List.cons_append, moveFirst, hb, Bool.false_eq_true, if_false]
    simp [ih2]

/-- C7: while dragging, a pointer move sets the dragged atom's position
to `pointer − grabOffset` clamped into
`[SIDEBAR_W+20, winW−20] × [20, winH−20]` (and only that atom moves);
the clamped point lies in that rectangle whenever the rectangle is
nonempty; in particular pointer `(450, 280)` with grab offset `(5, 5)`
in a 1200×800 window yields position `(445, 275)`. -/
theorem C7_drag_moves_clamped (st : SimState) (m : Vec2) (winW winH : ℚ)
    (pre post : List Atom) (a : Atom)
    (hdrag : st.dragging = true) (hid : st.draggingId ≠ -1)
    (hsplit : st.atoms = pre ++ a :: post) (haid : a.id = st.draggingId)
    (hpre : ∀ b ∈ pre, b.id ≠ st.draggingId) :
    (mouseMoveDrag m winW winH st).atoms =
      pre ++ { a with pos := clampToCanvas (m.sub st.dragOffset) winW winH } :: post ∧
    (SIDEBAR_W + 20 ≤ winW - 20 →
      SIDEBAR_W + 20 ≤ (clampToCanvas (m.sub st.dragOffset) winW winH).x ∧
      (clampToCanvas (m.sub st.dragOffset) winW winH).x ≤ winW - 20) ∧
    ((20 : ℚ) ≤ winH - 20 →
      20 ≤ (clampToCanvas (m.sub st.dragOffset) winW winH).y ∧
      (clampToCanvas (m.sub st.dragOffset) winW winH).y ≤ winH - 20) ∧
    clampToCanvas (Vec2.sub ⟨450, 280⟩ ⟨5, 5⟩) 1200 800 = ⟨445, 275⟩ := by
  have hclamp : ∀ v lo hi : ℚ, lo ≤ hi → lo ≤ clampQ v lo hi ∧ clampQ v lo hi ≤ hi := by
    intro v lo hi hle
    unfold clampQ
    split_ifs with h1 h2
    · exact ⟨le_refl lo, hle⟩
    · exact ⟨hle, le_refl hi⟩
    · exact ⟨le_of_not_lt h1, le_of_not_lt h2⟩
  refine ⟨?_, hclamp _ _ _, hclamp _ _ _, ?_⟩
  · unfold mouseMoveDrag
    have hcond : (st.dragging && st.draggingId != -1) = true := by
      simp [hdrag, hid]
    rw [if_pos hcond]
    dsimp only
    rw [hsplit, moveFirst_append st.draggingId _ pre post a haid hpre]
  · unfold clampToCanvas clampQ Vec2.sub SIDEBAR_W
    norm_num

/-- Witness for C7 on the concrete dragging state: atom 1 dragged with
grab offset `(5, 5)` and pointer at `(450, 280)` ends at `(445, 275)`. -/
theorem C7_drag_moves_clamped_witness :
    dragState.dragging = true ∧ dragState.draggingId ≠ -1 ∧
    (mouseMoveDrag ⟨450, 280⟩ 1200 800 dragState).atoms =
      [{ idleSelAtom with selected := false, pos := ⟨445, 275⟩ }] := by
  have h := (C7_drag_moves_clamped dragState ⟨450, 280⟩ 1200 800 []
    [] { idleSelAtom with selected := false } rfl (by simp [dragState]) rfl rfl
    (by simp)).1
  refine ⟨rfl, by simp [dragState], ?_⟩
  rw [h]
  have : clampToCanvas (Vec2.sub ⟨450, 280⟩ dragState.dragOffset) 1200 800 =
      (⟨445, 275⟩ : Vec2) := by
    unfold clampToCanvas clampQ Vec2.sub SIDEBAR_W dragState
    norm_num
  rw [this]
  rfl

theorem findHitId_some (m : Vec2) (atoms : List Atom) (i : Int)
    (h : findHitId m atoms = some i) :
    ∃ a ∈ atoms, a.id = i ∧ hitAtom m a = true := by
  have key : ∀ (l : List Atom) (acc : Option Int),
      l.foldl (fun acc a => if hitAtom m a then some a.id else acc) acc = some i →
        acc = some i ∨ ∃ a ∈ l, a.id = i ∧ hitAtom m a = true := by
    intro l
    induction l with
    | nil => exact fun acc h2 => Or.inl h2
    | cons b rest ih =>
      intro acc h2
      simp only [List.foldl_cons] at h2
      rcases ih _ h2 with h3 | h3
      · by_cases hb : hitAtom m b = true
        · rw [if_pos hb] at h3
          exact Or.inr ⟨b, List.mem_cons_self b rest, by injection h3, hb⟩
        · rw [if_neg hb] at h3
          exact Or.inl h3
      · obtain ⟨a, ha, hai, hah⟩ := h3
        exact Or.inr ⟨a, List.mem_cons_of_mem b ha, hai, hah⟩
  rcases key atoms none h with h2 | h2
  · exact absurd h2 (by simp)
  · exact h2

/-- C10: a canvas press that hits an atom always starts a drag of that
atom — `dragging` is set and `draggingId` is the hit id — for both
values of the multi-select modifier, hence independently of the atom's
resulting `selected` flag. -/
theorem C10_hit_always_starts_drag (m : Vec2) (ctrl : Bool) (st : SimState)
    (i : Int) (h : findHitId m st.atoms = some i) :
    (canvasPress m ctrl st).dragging = true ∧
      (canvasPress m ctrl st).draggingId = i := by
  obtain ⟨a, ha, hai, -⟩ := findHitId_some m st.atoms i h
  unfold canvasPress
  rw [h]
  dsimp only
  set atoms1 :=
    if ctrl then
      st.atoms.map (fun a => if a.id == i then { a with selected := !a.selected } else a)
    else st.atoms.map (fun a => { a with selected := a.id == i }) with hatoms1
  have hlive : ∃ b ∈ atoms1, b.id = i := by
    rw [hatoms1]
    split_ifs
    · exact live_map _ _ _ (fun a => by by_cases hc : (a.id == i) = true <;> simp [hc])
        ⟨a, ha, hai⟩
    · exact live_map _ _ _ (fun a => rfl) ⟨a, ha, hai⟩
  obtain ⟨b, hb, hbi⟩ := hlive
  have hfind : ({ st with atoms := atoms1 } : SimState).atoms.find?
      (fun a => a.id == i) |>.isSome := by
    rw [List.find?_isSome]
    exact ⟨b, hb, by simp [hbi]⟩
  unfold prepareDrag
  obtain ⟨c, hc⟩ := Option.isSome_iff_exists.mp hfind
  rw [hc]
  exact ⟨rfl, rfl⟩

/-- Witness for C10: with the modifier held, pressing on the selected
atom 1 deselects it and still starts the drag. -/
theorem C10_hit_always_starts_drag_witness :
    findHitId ⟨400, 300⟩ singleSelState.atoms = some 1 ∧
    ((canvasPress ⟨400, 300⟩ true singleSelState).dragging = true ∧
      (canvasPress ⟨400, 300⟩ true singleSelState).draggingId = 1) ∧
    (canvasPress ⟨400, 300⟩ true singleSelState).atoms.map (fun a => a.selected) =
      [false] := by
  have hfind : findHitId ⟨400, 300⟩ singleSelState.atoms = some 1 := by
    have hhit : hitAtom ⟨400, 300⟩ idleSelAtom = true := by
      unfold hitAtom idleSelAtom
      norm_num
    have hid : idleSelAtom.id = 1 := rfl
    unfold findHitId singleSelState
    simp [hhit, hid]
  refine ⟨hfind, C10_hit_always_starts_drag _ true singleSelState 1 hfind, ?_⟩
  unfold canvasPress
  rw [hfind]
  simp only [if_pos rfl]
  unfold prepareDrag
  simp [singleSelState, idleSelAtom]

/-- C1 as stated is false on the code: the commands do not preserve the
active/scheduled exclusion. Concretely, starting from the one-atom state
whose selected atom is idle and unscheduled, `scheduleSelected` at time
0 makes the schedule pending and a subsequent `toggleActiveSelected`
leaves atom 1 simultaneously `active = true` and with
`scheduledStart = some 2` still pending. -/
theorem C1_counterexample_toggle_keeps_schedule :
    ∃ a ∈ (toggleActiveSelected (scheduleSelected 0 singleSelState)).atoms,
      a.active = true ∧ a.scheduledStart = some 2 := by
  have h : (toggleActiveSelected (scheduleSelected 0 singleSelState)).atoms =
      [{ idleSelAtom with active := true, scheduledStart := some 2 }] := by
    unfold toggleActiveSelected scheduleSelected singleSelState
    simp [toggleAtom, scheduleAtom, idleSelAtom]
  rw [h]
  exact ⟨{ idleSelAtom with active := true, scheduledStart := some 2 },
    List.mem_singleton.mpr rfl, rfl, rfl⟩

/-- C1 (amended): the per-frame update does maintain the exclusion for
fired schedules — after `frameUpdate t` every still-pending
`scheduledStart` lies strictly in the future, and an atom whose schedule
is due comes out of the same update with `active = true` and
`scheduledStart` cleared; the commands `toggleActiveSelected` and
`scheduleSelected`, however, do not preserve the exclusion (see the
counterexample). -/
theorem C1_amended_update_clears_fired (t : ℚ) (st : SimState) :
    (∀ a2 ∈ (frameUpdate t st).atoms, ∀ ts, a2.scheduledStart = some ts → t < ts) ∧
    (∀ a ∈ st.atoms, ∀ ts, a.scheduledStart = some ts → ts ≤ t →
      (updateAtom t a).active = true ∧ (updateAtom t a).scheduledStart = none) := by
  have key : ∀ a : Atom, ∀ ts, (updateAtom t a).scheduledStart = some ts → t < ts := by
    intro a ts h
    rcases hs : a.scheduledStart with _ | ts0
    · have hsched : (updateAtom t a).scheduledStart = none := by
        unfold updateAtom
        rw [hs]
        dsimp only
        split_ifs <;> exact hs
      rw [hsched] at h
      exact absurd h (by simp)
    · by_cases hts : ts0 ≤ t
      · have hsched : (updateAtom t a).scheduledStart = none := by
          unfold updateAtom
          rw [hs]
          dsimp only
          rw [if_pos hts, if_pos rfl]
        rw [hsched] at h
        exact absurd h (by simp)
      · have hsched : (updateAtom t a).scheduledStart = some ts0 := by
          unfold updateAtom
          rw [hs]
          dsimp only
          rw [if_neg hts]
          split_ifs <;> exact hs
        rw [hsched] at h
        injection h with h2
        rw [← h2]
        exact not_le.mp hts
  constructor
  · intro a2 ha2
    simp only [frameUpdate, List.mem_map] at ha2
    obtain ⟨a, -, ha⟩ := ha2
    rw [← ha]
    exact key a
  · intro a ha ts hts hle
    have hu : updateAtom t a =
        { { a with active := true, scheduledStart := none } with
          electrons := advanceElectrons a.electrons } := by
      unfold updateAtom
      rw [hts]
      dsimp only
      rw [if_pos hle]
      rw [if_pos rfl]
    rw [hu]
    exact ⟨rfl, rfl⟩

/-- Witness for the amended C1: the pending schedule at time 2 of the
concrete scheduled state fires in an update at time 5. -/
theorem C1_amended_update_clears_fired_witness :
    ({ idleSelAtom with scheduledStart := some 2 } : Atom) ∈ schedState.atoms ∧
    (2 : ℚ) ≤ 5 ∧
    (updateAtom 5 { idleSelAtom with scheduledStart := some 2 }).active = true ∧
    (updateAtom 5 { idleSelAtom with scheduledStart := some 2 }).scheduledStart = none := by
  have hmem : ({ idleSelAtom with scheduledStart := some 2 } : Atom) ∈ schedState.atoms := by
    simp [schedState]
  have h := (C1_amended_update_clears_fired 5 schedState).2 _ hmem 2 rfl (by norm_num)
  exact ⟨hmem, by norm_num, h.1, h.2⟩

end QuantumSim
